import Mathlib

/-!
Shallow embedding of `source/isaaclab/isaaclab/envs/mdp/commands/test_rotation.py`:
constrained quaternion sampling and the clamped-angular-distance root-state reset,
over exact real arithmetic. Batched tensors are embedded as functions from the row
index; the random draws (`torch.rand`, `torch.randn`) are explicit arguments.
-/

open Real

/-- A quaternion as the code stores it: 4 components in (w, x, y, z) order. -/
@[ext]
structure Quat where
  w : ℝ
  x : ℝ
  y : ℝ
  z : ℝ

/-- A 3-vector (a random direction draw, a position, or an environment origin). -/
@[ext]
structure Vec3 where
  x : ℝ
  y : ℝ
  z : ℝ

/-- Modelled from the spec: `isaaclab.utils.math.quat_mul` is not under `src/`.
Spec section 4.1 step 6 and the glossary: quaternions in (w, x, y, z) order are
composed by the Hamilton product. -/
def quat_mul (q1 q2 : Quat) : Quat :=
  ⟨q1.w * q2.w - q1.x * q2.x - q1.y * q2.y - q1.z * q2.z,
   q1.w * q2.x + q1.x * q2.w + q1.y * q2.z - q1.z * q2.y,
   q1.w * q2.y + q1.y * q2.w + q1.z * q2.x - q1.x * q2.z,
   q1.w * q2.z + q1.z * q2.w + q1.x * q2.y - q1.y * q2.x⟩

/-- Euclidean dot product of two quaternions viewed as 4-vectors. -/
def quatDot (q1 q2 : Quat) : ℝ :=
  q1.w * q2.w + q1.x * q2.x + q1.y * q2.y + q1.z * q2.z

/-- Squared Euclidean norm of a quaternion. -/
def quatNormSq (q : Quat) : ℝ := quatDot q q

/-- Euclidean norm of a quaternion. -/
noncomputable def quatNorm (q : Quat) : ℝ := Real.sqrt (quatNormSq q)

/-- Squared Euclidean norm of a 3-vector. -/
def vnormSq (v : Vec3) : ℝ := v.x ^ 2 + v.y ^ 2 + v.z ^ 2

/-- `v.norm(dim=-1)`: Euclidean norm of a 3-vector. -/
noncomputable def vnorm (v : Vec3) : ℝ := Real.sqrt (vnormSq v)

/-- Lines 25 and 87: `cos_phi = (1.0 - u) + u * cos(max_angle / 2.0)`. -/
noncomputable def cos_phi (u max_angle : ℝ) : ℝ :=
  (1 - u) + u * Real.cos (max_angle / 2)

/-- Lines 26 and 88: `sin_phi = sqrt(1.0 - cos_phi**2)`. -/
noncomputable def sin_phi (u max_angle : ℝ) : ℝ :=
  Real.sqrt (1 - cos_phi u max_angle ^ 2)

/-- Lines 30 and 92: `v = v / v.norm(dim=-1, keepdim=True)` — an unconditional
division by the norm, with no epsilon and no zero-length guard. -/
noncomputable def normalizeDir (v : Vec3) : Vec3 :=
  ⟨v.x / vnorm v, v.y / vnorm v, v.z / vnorm v⟩

/-- Lines 33 and 95: the local-frame deviation quaternion (cos_phi, sin_phi * v̂). -/
noncomputable def local_quat (max_angle u : ℝ) (v : Vec3) : Quat :=
  ⟨cos_phi u max_angle,
   sin_phi u max_angle * (normalizeDir v).x,
   sin_phi u max_angle * (normalizeDir v).y,
   sin_phi u max_angle * (normalizeDir v).z⟩

/-- One output row shared by both samplers: `quat_mul(center, local_quat)`. -/
noncomputable def sampleRow (center : Quat) (max_angle u : ℝ) (v : Vec3) : Quat :=
  quat_mul center (local_quat max_angle (u) v)

/-- Lines 8-37: `sample_quat_within_rot_angle`. A single center is expanded across
the batch; row i uses the draws `us i` and `vs i`. -/
noncomputable def sample_quat_within_rot_angle (center_q : Quat) (max_angle : ℝ)
    (us : ℕ → ℝ) (vs : ℕ → Vec3) : ℕ → Quat :=
  fun i => sampleRow center_q max_angle (us i) (vs i)

/-- Lines 76-99: `sample_quat_within_angle`. Row i resamples its own center
`center_q i` with the draws `us i` and `vs i`. -/
noncomputable def sample_quat_within_angle (center_q : ℕ → Quat) (max_angle : ℝ)
    (us : ℕ → ℝ) (vs : ℕ → Vec3) : ℕ → Quat :=
  fun i => sampleRow (center_q i) max_angle (us i) (vs i)

/-- Angular distance between two orientations via the quaternion dot product,
as in the spec: `2 * arccos(|dot|)`. -/
noncomputable def angDist (q p : Quat) : ℝ := 2 * Real.arccos |quatDot q p|

/-- A python dict of named (low, high) ranges, embedded as an association list. -/
abbrev RangeMap := List (String × (ℝ × ℝ))

/-- `d.get(key, (0.0, 0.0))`: lookup with the zero-width default interval. -/
def getRange (m : RangeMap) (k : String) : ℝ × ℝ :=
  (m.lookup k).getD (0, 0)

/-- `[d.get(key, (0.0, 0.0)) for key in keys]` (lines 60, 114, 115). -/
def rangeList (m : RangeMap) (keys : List String) : List (ℝ × ℝ) :=
  keys.map (fun k => getRange m k)

/-- Modelled from the spec: `isaaclab.utils.math.sample_uniform` is not under `src/`.
Spec section 4.2: given k named intervals and a requested shape (N, cols), produce a
tensor whose entry (i, j) is `rand i j * (high_j - low_j) + low_j` with `rand` the
uniform [0, 1) draw, column j paired positionally with interval j. The output is
defined only when the number of intervals equals the requested column count: a
mismatched call does not broadcast against the requested shape and raises. -/
def sample_uniform (ranges : List (ℝ × ℝ)) (cols : ℕ) (rand : ℕ → ℕ → ℝ) :
    Option (ℕ → ℕ → ℝ) :=
  if ranges.length = cols then
    some (fun i j =>
      rand i j * ((ranges.getD j (0, 0)).2 - (ranges.getD j (0, 0)).1)
        + (ranges.getD j (0, 0)).1)
  else none

/-- Lines 57-64: `test_dict` (the print statements are side effects on stdout and are
dropped; the sampled tensor it builds is returned instead). -/
def test_dict (env_ids : List ℕ) (pose_range : RangeMap) (rand : ℕ → ℕ → ℝ) :
    Option (ℕ → ℕ → ℝ) :=
  sample_uniform (rangeList pose_range ["x", "y", "z", "max_radian"]) 4 rand

/-- Component j of a 3-vector, for rows stored component-wise. -/
def vecComp (v : Vec3) : ℕ → ℝ :=
  fun j => if j = 0 then v.x else if j = 1 then v.y else v.z

/-- Component j of a quaternion in (w, x, y, z) order. -/
def quatComp (q : Quat) : ℕ → ℝ :=
  fun j => if j = 0 then q.w else if j = 1 then q.x else if j = 2 then q.y else q.z

/-- A per-environment root-state row: 13 components, position at 0:3, quaternion at
3:7, velocity at 7:13, embedded as component index → value. -/
abbrev RootRow := ℕ → ℝ

/-- The slice of the simulation state the reset touches: per-environment default root
states, environment origins, and the simulated pose and velocity buffers behind the
two write interfaces. -/
structure EnvState where
  default_root_state : ℕ → RootRow
  env_origins : ℕ → Vec3
  sim_pose : ℕ → ℕ → ℝ
  sim_vel : ℕ → ℕ → ℝ

/-- `asset.write_root_pose_to_sim(poses, env_ids)`: commits row i of `poses` to the
simulated pose of environment `env_ids[i]`; all other environments keep theirs. -/
def write_root_pose_to_sim (s : EnvState) (poses : ℕ → ℕ → ℝ) (env_ids : List ℕ) :
    EnvState :=
  { s with sim_pose := fun e =>
      if e ∈ env_ids then poses (env_ids.indexOf e) else s.sim_pose e }

/-- `asset.write_root_velocity_to_sim(vels, env_ids)`: commits row i of `vels` to the
simulated velocity of environment `env_ids[i]`; all other environments keep theirs. -/
def write_root_velocity_to_sim (s : EnvState) (vels : ℕ → ℕ → ℝ) (env_ids : List ℕ) :
    EnvState :=
  { s with sim_vel := fun e =>
      if e ∈ env_ids then vels (env_ids.indexOf e) else s.sim_vel e }

/-- Lines 101-129: `reset_root_state_clamped_angular_distance`. The random draws are
explicit arguments: `posRand` feeds the positional uniform draw, `velRand` the
velocity draw, `us` and `vs` the orientation sampler. The result is the state after
whatever writes executed, paired with `true` iff the call ran to completion: a
uniform draw whose interval count does not match its requested column count raises,
aborting the call before any write that follows it. Line 122 passes `xyz_pos_ranges`
(3 intervals), not the computed-but-unused `xyz_vel_ranges`, to the 6-column
velocity draw, exactly as the source does. -/
noncomputable def reset_root_state_clamped_angular_distance
    (s : EnvState) (env_ids : List ℕ)
    (position_range velocity_range : RangeMap) (max_radian : ℝ)
    (posRand velRand : ℕ → ℕ → ℝ) (us : ℕ → ℝ) (vs : ℕ → Vec3) :
    EnvState × Bool :=
  let root_states : ℕ → RootRow := fun i => s.default_root_state (env_ids.getD i 0)
  let xyz_pos_ranges := rangeList position_range ["x", "y", "z"]
  let _xyz_vel_ranges :=
    rangeList velocity_range ["x", "y", "z", "roll", "pitch", "yaw"]
  match sample_uniform xyz_pos_ranges 3 posRand with
  | none => (s, false)
  | some xyz_pos_rand_samples =>
    let orientations : ℕ → Quat := fun i =>
      sampleRow ⟨root_states i 3, root_states i 4, root_states i 5, root_states i 6⟩
        max_radian (us i) (vs i)
    match sample_uniform xyz_pos_ranges 6 velRand with
    | none => (s, false)
    | some xyzrpy_vel_rand_samples =>
      let positions : ℕ → ℕ → ℝ := fun i j =>
        root_states i j + vecComp (s.env_origins (env_ids.getD i 0)) j
          + xyz_pos_rand_samples i j
      let poses : ℕ → ℕ → ℝ := fun i j =>
        if j < 3 then positions i j else quatComp (orientations i) (j - 3)
      let s1 := write_root_pose_to_sim s poses env_ids
      let velocities : ℕ → ℕ → ℝ := fun i j =>
        root_states i (7 + j) + xyzrpy_vel_rand_samples i j
      let s2 := write_root_velocity_to_sim s1 velocities env_ids
      (s2, true)

/-! Helper lemmas shared by the claim theorems. -/

lemma quatNormSq_mul (a b : Quat) :
    quatNormSq (quat_mul a b) = quatNormSq a * quatNormSq b := by
  simp only [quatNormSq, quatDot, quat_mul]
  ring

lemma quatDot_mul_right (q l : Quat) :
    quatDot q (quat_mul q l) = quatNormSq q * l.w := by
  simp only [quatNormSq, quatDot, quat_mul]
  ring

lemma quatNorm_eq_one_iff {q : Quat} : quatNorm q = 1 ↔ quatNormSq q = 1 :=
  Real.sqrt_eq_one

lemma cos_phi_le_one {u : ℝ} (θ : ℝ) (h0 : 0 ≤ u) : cos_phi u θ ≤ 1 := by
  have h := Real.cos_le_one (θ / 2)
  simp only [cos_phi]
  nlinarith

lemma cos_half_le_cos_phi {u : ℝ} (θ : ℝ) (h1 : u ≤ 1) :
    Real.cos (θ / 2) ≤ cos_phi u θ := by
  have h := Real.cos_le_one (θ / 2)
  simp only [cos_phi]
  nlinarith

lemma neg_one_le_cos_phi {u : ℝ} (θ : ℝ) (h0 : 0 ≤ u) (h1 : u ≤ 1) :
    -1 ≤ cos_phi u θ :=
  le_trans (Real.neg_one_le_cos (θ / 2)) (cos_half_le_cos_phi θ h1)

lemma one_sub_cos_phi_sq_nonneg {u : ℝ} (θ : ℝ) (h0 : 0 ≤ u) (h1 : u ≤ 1) :
    0 ≤ 1 - cos_phi u θ ^ 2 := by
  have hl := neg_one_le_cos_phi θ h0 h1
  have hu := cos_phi_le_one θ h0
  nlinarith

lemma sin_phi_sq {u : ℝ} (θ : ℝ) (h0 : 0 ≤ u) (h1 : u ≤ 1) :
    sin_phi u θ ^ 2 = 1 - cos_phi u θ ^ 2 :=
  Real.sq_sqrt (one_sub_cos_phi_sq_nonneg θ h0 h1)

lemma vnormSq_nonneg (v : Vec3) : 0 ≤ vnormSq v := by
  simp only [vnormSq]
  positivity

lemma vnormSq_pos {v : Vec3} (hv : v ≠ ⟨0, 0, 0⟩) : 0 < vnormSq v := by
  obtain ⟨x, y, z⟩ := v
  rcases (vnormSq_nonneg ⟨x, y, z⟩).lt_or_eq with h | h
  · exact h
  · exfalso
    apply hv
    simp only [vnormSq] at h
    have hx : x = 0 :=
      (pow_eq_zero_iff two_ne_zero).mp
        (le_antisymm (by nlinarith [sq_nonneg y, sq_nonneg z]) (sq_nonneg x))
    have hy : y = 0 :=
      (pow_eq_zero_iff two_ne_zero).mp
        (le_antisymm (by nlinarith [sq_nonneg x, sq_nonneg z]) (sq_nonneg y))
    have hz : z = 0 :=
      (pow_eq_zero_iff two_ne_zero).mp
        (le_antisymm (by nlinarith [sq_nonneg x, sq_nonneg y]) (sq_nonneg z))
    simp [hx, hy, hz]

lemma vnorm_pos {v : Vec3} (hv : v ≠ ⟨0, 0, 0⟩) : 0 < vnorm v :=
  Real.sqrt_pos.mpr (vnormSq_pos hv)

lemma vnorm_sq (v : Vec3) : vnorm v ^ 2 = vnormSq v :=
  Real.sq_sqrt (vnormSq_nonneg v)

lemma normalizeDir_normSq {v : Vec3} (hv : v ≠ ⟨0, 0, 0⟩) :
    (normalizeDir v).x ^ 2 + (normalizeDir v).y ^ 2 + (normalizeDir v).z ^ 2 = 1 := by
  have hn : vnorm v ≠ 0 := (vnorm_pos hv).ne'
  simp only [normalizeDir]
  field_simp
  rw [vnorm_sq]
  simp [vnormSq]

lemma quatNormSq_local {θ u : ℝ} {v : Vec3} (hv : v ≠ ⟨0, 0, 0⟩)
    (h0 : 0 ≤ u) (h1 : u ≤ 1) : quatNormSq (local_quat θ u v) = 1 := by
  have key := normalizeDir_normSq hv
  have hs := sin_phi_sq θ h0 h1
  calc quatNormSq (local_quat θ u v)
      = cos_phi u θ ^ 2 + sin_phi u θ ^ 2 *
          ((normalizeDir v).x ^ 2 + (normalizeDir v).y ^ 2 + (normalizeDir v).z ^ 2) := by
        simp only [quatNormSq, quatDot, local_quat]
        ring
    _ = cos_phi u θ ^ 2 + sin_phi u θ ^ 2 := by rw [key, mul_one]
    _ = 1 := by rw [hs]; ring

lemma quatNorm_mul_of_units {a b : Quat} (ha : quatNorm a = 1) (hb : quatNorm b = 1) :
    quatNorm (quat_mul a b) = 1 := by
  rw [quatNorm_eq_one_iff] at ha hb ⊢
  rw [quatNormSq_mul, ha, hb, one_mul]

lemma arccos_anti {x y : ℝ} (h : x ≤ y) : Real.arccos y ≤ Real.arccos x := by
  rw [Real.arccos_eq_pi_div_two_sub_arcsin, Real.arccos_eq_pi_div_two_sub_arcsin]
  have := Real.monotone_arcsin h
  linarith

lemma sampleRow_dot (q : Quat) (θ u : ℝ) (v : Vec3) :
    quatDot q (sampleRow q θ u v) = quatNormSq q * cos_phi u θ := by
  rw [sampleRow, quatDot_mul_right]
  rfl

lemma sampleRow_angDist_le {q : Quat} {θ u : ℝ} (v : Vec3)
    (hq : quatNorm q = 1) (hθ0 : 0 ≤ θ) (hθ2 : θ ≤ 2 * π)
    (h0 : 0 ≤ u) (h1 : u ≤ 1) : angDist q (sampleRow q θ u v) ≤ θ := by
  have hnsq : quatNormSq q = 1 := quatNorm_eq_one_iff.mp hq
  have hdot : quatDot q (sampleRow q θ u v) = cos_phi u θ := by
    rw [sampleRow_dot, hnsq, one_mul]
  have hcl : Real.cos (θ / 2) ≤ |cos_phi u θ| :=
    le_trans (cos_half_le_cos_phi θ h1) (le_abs_self _)
  have harc : Real.arccos |cos_phi u θ| ≤ Real.arccos (Real.cos (θ / 2)) :=
    arccos_anti hcl
  have hcc : Real.arccos (Real.cos (θ / 2)) = θ / 2 :=
    Real.arccos_cos (by linarith) (by linarith)
  simp only [angDist, hdot]
  linarith

lemma sampleRow_norm {q : Quat} {θ u : ℝ} {v : Vec3} (hq : quatNorm q = 1)
    (hv : v ≠ ⟨0, 0, 0⟩) (h0 : 0 ≤ u) (h1 : u ≤ 1) :
    quatNorm (sampleRow q θ u v) = 1 :=
  quatNorm_mul_of_units hq (quatNorm_eq_one_iff.mpr (quatNormSq_local hv h0 h1))

lemma cos_phi_zero (u : ℝ) : cos_phi u 0 = 1 := by
  simp only [cos_phi, zero_div, Real.cos_zero, mul_one]
  ring

lemma sin_phi_zero (u : ℝ) : sin_phi u 0 = 0 := by
  rw [sin_phi, cos_phi_zero]
  simp

lemma local_quat_zero (u : ℝ) (v : Vec3) : local_quat 0 u v = ⟨1, 0, 0, 0⟩ := by
  ext <;> simp [local_quat, cos_phi_zero, sin_phi_zero]

lemma quat_mul_ident (q : Quat) : quat_mul q ⟨1, 0, 0, 0⟩ = q := by
  ext <;> simp [quat_mul]

lemma cos_phi_two_pi (u : ℝ) : cos_phi u (2 * π) = 1 - 2 * u := by
  have h2 : (2 * π) / 2 = π := by ring
  simp only [cos_phi, h2, Real.cos_pi]
  ring

lemma reset_always_fails (s : EnvState) (env_ids : List ℕ)
    (position_range velocity_range : RangeMap) (max_radian : ℝ)
    (posRand velRand : ℕ → ℕ → ℝ) (us : ℕ → ℝ) (vs : ℕ → Vec3) :
    reset_root_state_clamped_angular_distance s env_ids
      position_range velocity_range max_radian posRand velRand us vs = (s, false) := by
  unfold reset_root_state_clamped_angular_distance sample_uniform
  simp [rangeList]

/-- C2: for every unit-norm reference quaternion, every max_angle in [0, 2π], and
every value of the random draws (u from the [0, 1) uniform draw, v the direction
draw), each output row of sample_quat_within_rot_angle and of
sample_quat_within_angle has angular distance 2·arccos(|dot|) from its reference of
at most max_angle, in exact arithmetic. -/
theorem C2_angular_distance_within_max_angle
    (q : Quat) (qs : ℕ → Quat) (θ : ℝ) (us : ℕ → ℝ) (vs : ℕ → Vec3) (i : ℕ)
    (hq : quatNorm q = 1) (hqi : quatNorm (qs i) = 1)
    (hθ0 : 0 ≤ θ) (hθ2 : θ ≤ 2 * π)
    (hu0 : 0 ≤ us i) (hu1 : us i ≤ 1) :
    angDist q (sample_quat_within_rot_angle q θ us vs i) ≤ θ ∧
    angDist (qs i) (sample_quat_within_angle qs θ us vs i) ≤ θ :=
  ⟨sampleRow_angDist_le (vs i) hq hθ0 hθ2 hu0 hu1,
   sampleRow_angDist_le (vs i) hqi hθ0 hθ2 hu0 hu1⟩

/-- Witness for C2 at the identity reference, max_angle = 2π, u = 0, v = (0,0,1). -/
theorem C2_angular_distance_within_max_angle_witness :
    quatNorm ⟨1, 0, 0, 0⟩ = 1 ∧ (0 : ℝ) ≤ 2 * π ∧ (0 : ℝ) ≤ 0 ∧ (0 : ℝ) ≤ 1 ∧
    (angDist ⟨1, 0, 0, 0⟩
        (sample_quat_within_rot_angle ⟨1, 0, 0, 0⟩ (2 * π)
          (fun _ => 0) (fun _ => ⟨0, 0, 1⟩) 0) ≤ 2 * π ∧
      angDist ⟨1, 0, 0, 0⟩
        (sample_quat_within_angle (fun _ => ⟨1, 0, 0, 0⟩) (2 * π)
          (fun _ => 0) (fun _ => ⟨0, 0, 1⟩) 0) ≤ 2 * π) := by
  have hq : quatNorm (⟨1, 0, 0, 0⟩ : Quat) = 1 := by
    simp [quatNorm, quatNormSq, quatDot]
  refine ⟨hq, by positivity, le_refl 0, zero_le_one, ?_⟩
  exact C2_angular_distance_within_max_angle ⟨1, 0, 0, 0⟩ (fun _ => ⟨1, 0, 0, 0⟩)
    (2 * π) (fun _ => 0) (fun _ => ⟨0, 0, 1⟩) 0 hq hq (by positivity) le_rfl
    le_rfl zero_le_one

/-- C3: for every unit-norm reference, every max_angle, every nonzero direction draw
and every u in [0, 1], the local deviation quaternion has unit norm, every output
row of both samplers has unit norm, and the product of two unit quaternions has
unit norm, in exact arithmetic. -/
theorem C3_outputs_unit_norm
    (q : Quat) (qs : ℕ → Quat) (θ : ℝ) (us : ℕ → ℝ) (vs : ℕ → Vec3) (i : ℕ)
    (hq : quatNorm q = 1) (hqi : quatNorm (qs i) = 1)
    (hv : vs i ≠ ⟨0, 0, 0⟩) (hu0 : 0 ≤ us i) (hu1 : us i ≤ 1) :
    quatNorm (local_quat θ (us i) (vs i)) = 1 ∧
    quatNorm (sample_quat_within_rot_angle q θ us vs i) = 1 ∧
    quatNorm (sample_quat_within_angle qs θ us vs i) = 1 ∧
    (∀ a b : Quat, quatNorm a = 1 → quatNorm b = 1 → quatNorm (quat_mul a b) = 1) :=
  ⟨quatNorm_eq_one_iff.mpr (quatNormSq_local hv hu0 hu1),
   sampleRow_norm hq hv hu0 hu1,
   sampleRow_norm hqi hv hu0 hu1,
   fun _ _ ha hb => quatNorm_mul_of_units ha hb⟩

/-- Witness for C3 at the identity reference, max_angle = π, u = 1/2, v = (0,0,1). -/
theorem C3_outputs_unit_norm_witness :
    quatNorm ⟨1, 0, 0, 0⟩ = 1 ∧ (⟨0, 0, 1⟩ : Vec3) ≠ ⟨0, 0, 0⟩ ∧
    (0 : ℝ) ≤ 1 / 2 ∧ (1 / 2 : ℝ) ≤ 1 ∧
    (quatNorm (local_quat π (1 / 2) ⟨0, 0, 1⟩) = 1 ∧
      quatNorm (sample_quat_within_rot_angle ⟨1, 0, 0, 0⟩ π
        (fun _ => 1 / 2) (fun _ => ⟨0, 0, 1⟩) 0) = 1 ∧
      quatNorm (sample_quat_within_angle (fun _ => ⟨1, 0, 0, 0⟩) π
        (fun _ => 1 / 2) (fun _ => ⟨0, 0, 1⟩) 0) = 1) := by
  have hq : quatNorm (⟨1, 0, 0, 0⟩ : Quat) = 1 := by
    simp [quatNorm, quatNormSq, quatDot]
  have hv : (⟨0, 0, 1⟩ : Vec3) ≠ ⟨0, 0, 0⟩ := by
    simp [Vec3.mk.injEq]
  have h := C3_outputs_unit_norm ⟨1, 0, 0, 0⟩ (fun _ => ⟨1, 0, 0, 0⟩) π
    (fun _ => 1 / 2) (fun _ => ⟨0, 0, 1⟩) 0 hq hq hv (by norm_num) (by norm_num)
  exact ⟨hq, hv, by norm_num, by norm_num, h.1, h.2.1, h.2.2.1⟩

/-- C4: for max_angle = 0, both samplers return the reference row unchanged, with
cos_phi = 1 and sin_phi = 0, for every reference and every value of the draws, in
exact arithmetic. -/
theorem C4_zero_angle_returns_reference
    (q : Quat) (qs : ℕ → Quat) (us : ℕ → ℝ) (vs : ℕ → Vec3) (i : ℕ) :
    sample_quat_within_rot_angle q 0 us vs i = q ∧
    sample_quat_within_angle qs 0 us vs i = qs i ∧
    cos_phi (us i) 0 = 1 ∧ sin_phi (us i) 0 = 0 :=
  ⟨by simp [sample_quat_within_rot_angle, sampleRow, local_quat_zero, quat_mul_ident],
   by simp [sample_quat_within_angle, sampleRow, local_quat_zero, quat_mul_ident],
   cos_phi_zero (us i), sin_phi_zero (us i)⟩

/-- C5 counterexample: at max_angle = 2π no draw u in [0, 1) makes cos_phi reach -1,
so cos_phi does not take values across the whole interval [-1, 1]. -/
theorem C5_cos_phi_never_reaches_neg_one :
    ¬ ∃ u : ℝ, 0 ≤ u ∧ u < 1 ∧ cos_phi u (2 * π) = -1 := by
  rintro ⟨u, h0, h1, he⟩
  rw [cos_phi_two_pi] at he
  linarith

/-- C5 amended: for every u in [0, 1) and every max_angle, cos_phi lies in
[cos(max_angle/2), 1]; for max_angle = 2π, cos_phi never equals -1 but attains
every value of (-1, 1]. -/
theorem C5_cos_phi_interval
    (u θ c : ℝ) (hu0 : 0 ≤ u) (hu1 : u < 1) (hc1 : -1 < c) (hc2 : c ≤ 1) :
    (Real.cos (θ / 2) ≤ cos_phi u θ ∧ cos_phi u θ ≤ 1) ∧
    cos_phi u (2 * π) ≠ -1 ∧
    ∃ u2 : ℝ, 0 ≤ u2 ∧ u2 < 1 ∧ cos_phi u2 (2 * π) = c := by
  refine ⟨⟨cos_half_le_cos_phi θ hu1.le, cos_phi_le_one θ hu0⟩, ?_, ?_⟩
  · rw [cos_phi_two_pi]
    intro h
    linarith
  · refine ⟨(1 - c) / 2, by linarith, by linarith, ?_⟩
    rw [cos_phi_two_pi]
    ring

/-- Witness for C5 amended at u = 0, max_angle = 0, c = 0. -/
theorem C5_cos_phi_interval_witness :
    (0 : ℝ) ≤ 0 ∧ (0 : ℝ) < 1 ∧ (-1 : ℝ) < 0 ∧ (0 : ℝ) ≤ 1 ∧
    ((Real.cos (0 / 2) ≤ cos_phi 0 0 ∧ cos_phi 0 0 ≤ 1) ∧
      cos_phi 0 (2 * π) ≠ -1 ∧
      ∃ u2 : ℝ, 0 ≤ u2 ∧ u2 < 1 ∧ cos_phi u2 (2 * π) = 0) :=
  ⟨le_rfl, by norm_num, by norm_num, by norm_num,
   C5_cos_phi_interval 0 0 0 le_rfl (by norm_num) (by norm_num) (by norm_num)⟩

/-- C9: for every u in [0, 1] and every max_angle, cos_phi lies in [-1, 1], the
argument 1 - cos_phi² of the square root is nonnegative, and the unclamped
sqrt satisfies sin_phi² = 1 - cos_phi², in exact arithmetic. -/
theorem C9_sqrt_argument_nonneg (u θ : ℝ) (h0 : 0 ≤ u) (h1 : u ≤ 1) :
    -1 ≤ cos_phi u θ ∧ cos_phi u θ ≤ 1 ∧ 0 ≤ 1 - cos_phi u θ ^ 2 ∧
    sin_phi u θ ^ 2 = 1 - cos_phi u θ ^ 2 :=
  ⟨neg_one_le_cos_phi θ h0 h1, cos_phi_le_one θ h0,
   one_sub_cos_phi_sq_nonneg θ h0 h1, sin_phi_sq θ h0 h1⟩

/-- Witness for C9 at u = 1/2, max_angle = π. -/
theorem C9_sqrt_argument_nonneg_witness :
    (0 : ℝ) ≤ 1 / 2 ∧ (1 / 2 : ℝ) ≤ 1 ∧
    (-1 ≤ cos_phi (1 / 2) π ∧ cos_phi (1 / 2) π ≤ 1 ∧
      0 ≤ 1 - cos_phi (1 / 2) π ^ 2 ∧
      sin_phi (1 / 2) π ^ 2 = 1 - cos_phi (1 / 2) π ^ 2) :=
  ⟨by norm_num, by norm_num,
   C9_sqrt_argument_nonneg (1 / 2) π (by norm_num) (by norm_num)⟩

lemma rangeList_getD (m : RangeMap) (keys : List String) (j : ℕ)
    (hj : j < keys.length) :
    (rangeList m keys).getD j (0, 0) = getRange m (keys.getD j "") := by
  induction keys generalizing j with
  | nil => simp at hj
  | cons k ks ih =>
    cases j with
    | zero => rfl
    | succ j2 =>
      simp only [rangeList, List.map_cons, List.getD_cons_succ]
      exact ih j2 (by simpa using hj)

/-- C6: a key absent from the supplied range mapping resolves to (0.0, 0.0) without
raising, and its output column in the uniform sample of test_dict is identically 0;
a key present with interval [low, high] yields entries within [low, high]. -/
theorem C6_missing_keys_default_zero
    (pose_range : RangeMap) (env_ids : List ℕ) (rand : ℕ → ℕ → ℝ)
    (i j : ℕ) (hj : j < 4) (hr0 : 0 ≤ rand i j) (hr1 : rand i j ≤ 1) :
    (∀ (m : RangeMap) (k : String), m.lookup k = none → getRange m k = (0, 0)) ∧
    ∃ out, test_dict env_ids pose_range rand = some out ∧
      (pose_range.lookup (["x", "y", "z", "max_radian"].getD j "") = none →
        out i j = 0) ∧
      (∀ lo hi : ℝ,
        pose_range.lookup (["x", "y", "z", "max_radian"].getD j "") = some (lo, hi) →
        lo ≤ hi → lo ≤ out i j ∧ out i j ≤ hi) := by
  refine ⟨fun m k h => by simp [getRange, h], _, rfl, ?_, ?_⟩
  · intro hnone
    have hg := rangeList_getD pose_range ["x", "y", "z", "max_radian"] j
      (by simpa using hj)
    simp only [hg, getRange, hnone, Option.getD_none]
    simp
  · intro lo hi hsome hle
    have hg := rangeList_getD pose_range ["x", "y", "z", "max_radian"] j
      (by simpa using hj)
    simp only [hg, getRange, hsome, Option.getD_some]
    constructor <;> nlinarith

/-- Witness for C6 with mapping x ↦ (2, 3), column 3 ("max_radian", absent),
uniform draw 1/2. -/
theorem C6_missing_keys_default_zero_witness :
    3 < 4 ∧ (0 : ℝ) ≤ 1 / 2 ∧ (1 / 2 : ℝ) ≤ 1 ∧
    ((∀ (m : RangeMap) (k : String), m.lookup k = none → getRange m k = (0, 0)) ∧
      ∃ out, test_dict [0] [("x", ((2 : ℝ), 3))] (fun _ _ => 1 / 2) = some out ∧
        (([("x", ((2 : ℝ), 3))] : RangeMap).lookup
            (["x", "y", "z", "max_radian"].getD 3 "") = none → out 0 3 = 0) ∧
        (∀ lo hi : ℝ,
          ([("x", ((2 : ℝ), 3))] : RangeMap).lookup
              (["x", "y", "z", "max_radian"].getD 3 "") = some (lo, hi) →
          lo ≤ hi → lo ≤ out 0 3 ∧ out 0 3 ≤ hi)) :=
  ⟨by norm_num, by norm_num, by norm_num,
   C6_missing_keys_default_zero [("x", ((2 : ℝ), 3))] [0] (fun _ _ => 1 / 2) 0 3
     (by norm_num) (by norm_num) (by norm_num)⟩

/-- C8 counterexample: the zero-length direction draw reaches the division —
the divisor `v.norm` is 0 and each component is computed as 0 / 0, so the
normalization is not guarded against division by zero. -/
theorem C8_normalization_divides_by_zero :
    vnorm ⟨0, 0, 0⟩ = 0 ∧
    normalizeDir ⟨0, 0, 0⟩ = ⟨(0 : ℝ) / 0, (0 : ℝ) / 0, (0 : ℝ) / 0⟩ := by
  have h : vnorm ⟨0, 0, 0⟩ = 0 := by
    simp [vnorm, vnormSq]
  exact ⟨h, by ext <;> simp [normalizeDir, h]⟩

/-- C8 amended: the normalization divides by `v.norm` unconditionally, with no
guard; the divisor is zero exactly for the zero-length draw, and for every nonzero
draw no division by zero occurs. -/
theorem C8_normalization_unguarded (v : Vec3) (hv : v ≠ ⟨0, 0, 0⟩) :
    vnorm v ≠ 0 ∧
    normalizeDir v = ⟨v.x / vnorm v, v.y / vnorm v, v.z / vnorm v⟩ :=
  ⟨(vnorm_pos hv).ne', rfl⟩

/-- Witness for C8 amended at the nonzero draw (0, 0, 1). -/
theorem C8_normalization_unguarded_witness :
    (⟨0, 0, 1⟩ : Vec3) ≠ ⟨0, 0, 0⟩ ∧
    (vnorm ⟨0, 0, 1⟩ ≠ 0 ∧
      normalizeDir ⟨0, 0, 1⟩ =
        ⟨0 / vnorm ⟨0, 0, 1⟩, 0 / vnorm ⟨0, 0, 1⟩, 1 / vnorm ⟨0, 0, 1⟩⟩) := by
  have hv : (⟨0, 0, 1⟩ : Vec3) ≠ ⟨0, 0, 0⟩ := by
    simp [Vec3.mk.injEq]
  exact ⟨hv, C8_normalization_unguarded ⟨0, 0, 1⟩ hv⟩

/-- C1 (code bug): at a concrete call, the 6-column velocity draw is fed the
3-interval position ranges (line 122), so it raises and the call fails; the
result does not depend on velocity_range at all, so no velocity jitter is ever
drawn from it. -/
theorem C1_velocity_range_ignored_and_draw_fails :
    (reset_root_state_clamped_angular_distance
        ⟨fun _ _ => 0, fun _ => ⟨0, 0, 0⟩, fun _ _ => 0, fun _ _ => 0⟩ [0]
        [("x", (-1, 1))] [("x", (-2, 2))] 1
        (fun _ _ => 0) (fun _ _ => 0) (fun _ => 0) (fun _ => ⟨0, 0, 1⟩)).2 = false ∧
    reset_root_state_clamped_angular_distance
        ⟨fun _ _ => 0, fun _ => ⟨0, 0, 0⟩, fun _ _ => 0, fun _ _ => 0⟩ [0]
        [("x", (-1, 1))] [("x", (-2, 2))] 1
        (fun _ _ => 0) (fun _ _ => 0) (fun _ => 0) (fun _ => ⟨0, 0, 1⟩) =
      reset_root_state_clamped_angular_distance
        ⟨fun _ _ => 0, fun _ => ⟨0, 0, 0⟩, fun _ _ => 0, fun _ _ => 0⟩ [0]
        [("x", (-1, 1))] [("yaw", (5, 6))] 1
        (fun _ _ => 0) (fun _ _ => 0) (fun _ => 0) (fun _ => ⟨0, 0, 1⟩) := by
  constructor
  · rw [reset_always_fails]
  · rw [reset_always_fails, reset_always_fails]

/-- C7 (code bug): the velocity draw raises before the pose write executes, so for
every input the simulated pose buffer is unchanged — no position is ever written. -/
theorem C7_no_position_written (s : EnvState) (env_ids : List ℕ)
    (position_range velocity_range : RangeMap) (max_radian : ℝ)
    (posRand velRand : ℕ → ℕ → ℝ) (us : ℕ → ℝ) (vs : ℕ → Vec3) :
    (reset_root_state_clamped_angular_distance s env_ids position_range
        velocity_range max_radian posRand velRand us vs).1.sim_pose = s.sim_pose ∧
    (reset_root_state_clamped_angular_distance s env_ids position_range
        velocity_range max_radian posRand velRand us vs).2 = false := by
  rw [reset_always_fails]
  exact ⟨rfl, rfl⟩

/-- C10: reset_root_state_clamped_angular_distance never changes the stored default
root state — it only reads it — and the two sink interfaces it writes through touch
only the simulated pose and velocity buffers, never the default root state. -/
theorem C10_default_root_state_unchanged (s : EnvState) (env_ids : List ℕ)
    (position_range velocity_range : RangeMap) (max_radian : ℝ)
    (posRand velRand : ℕ → ℕ → ℝ) (us : ℕ → ℝ) (vs : ℕ → Vec3) :
    (reset_root_state_clamped_angular_distance s env_ids position_range
        velocity_range max_radian posRand velRand us vs).1.default_root_state =
      s.default_root_state ∧
    (∀ (s2 : EnvState) (poses : ℕ → ℕ → ℝ) (ids : List ℕ),
      (write_root_pose_to_sim s2 poses ids).default_root_state =
        s2.default_root_state) ∧
    (∀ (s2 : EnvState) (vels : ℕ → ℕ → ℝ) (ids : List ℕ),
      (write_root_velocity_to_sim s2 vels ids).default_root_state =
        s2.default_root_state) := by
  refine ⟨?_, fun _ _ _ => rfl, fun _ _ _ => rfl⟩
  rw [reset_always_fails]
